import Mathlib

/-!
Verification of the transaction-categorization core of the
AutomateFinancesWithPython dashboard (`main.py`), via a shallow embedding.

Strings are modelled as `List Char` (`Str`).  Python's `str.upper` is
modelled on the ASCII letters (the only characters the program's data
uses), `\s` of the `re` module is modelled as the ASCII whitespace class,
and `float` amounts are modelled as rationals (only sign comparisons and
exact decimal arithmetic occur in the verified code paths).  A raised
Python exception is modelled as `Except.error` / `Option.none`.
-/

set_option autoImplicit false

namespace AutomateFinances

/-- Strings are modelled as lists of characters. -/
abbrev Str := List Char

/-- ASCII whitespace, modelling Python's `str.strip` / `str.split` /
regex `\s` character class on the ASCII range. -/
def isSpaceChar (c : Char) : Bool :=
  c = ' ' || c = '\t' || c = '\n' || c = '\r' || c = '\x0b' || c = '\x0c'

/-- Python `str.upper`, modelled on ASCII letters (identity elsewhere). -/
def pyUpperChar (c : Char) : Char :=
  if c = 'a' then 'A' else if c = 'b' then 'B' else if c = 'c' then 'C'
  else if c = 'd' then 'D' else if c = 'e' then 'E' else if c = 'f' then 'F'
  else if c = 'g' then 'G' else if c = 'h' then 'H' else if c = 'i' then 'I'
  else if c = 'j' then 'J' else if c = 'k' then 'K' else if c = 'l' then 'L'
  else if c = 'm' then 'M' else if c = 'n' then 'N' else if c = 'o' then 'O'
  else if c = 'p' then 'P' else if c = 'q' then 'Q' else if c = 'r' then 'R'
  else if c = 's' then 'S' else if c = 't' then 'T' else if c = 'u' then 'U'
  else if c = 'v' then 'V' else if c = 'w' then 'W' else if c = 'x' then 'X'
  else if c = 'y' then 'Y' else if c = 'z' then 'Z' else c

/-- `details.upper()`. -/
def pyUpperL (l : Str) : Str := l.map pyUpperChar

/-- `details.strip()`: drop ASCII whitespace from both ends. -/
def pyStrip (l : Str) : Str :=
  (((l.dropWhile isSpaceChar).reverse.dropWhile isSpaceChar).reverse)

/-- Folding step of `str.split()`: whitespace starts a new (possibly empty)
chunk, a non-whitespace character is prepended to the current chunk. -/
def splitStep (c : Char) (acc : List Str) : List Str :=
  if isSpaceChar c then [] :: acc
  else
    match acc with
    | [] => [[c]]
    | w :: ws => (c :: w) :: ws

/-- Chunks of `str.split()` before removing empty chunks. -/
def pySplitRaw (l : Str) : List Str := l.foldr splitStep []

/-- Python `str.split()` with no separator: split on whitespace runs,
discarding empty chunks. -/
def pySplit (l : Str) : List Str := (pySplitRaw l).filter (fun w => w ≠ [])

/-- Python `' '.join(ws)`. -/
def joinSpace : List Str → Str
  | [] => []
  | [w] => w
  | w :: ws => w ++ ' ' :: joinSpace ws

/-- The whitespace-collapsing step `' '.join(details.split())`. -/
def collapseSpaces (l : Str) : Str := joinSpace (pySplit l)

/-- The fixed suffix list `suffixes_to_remove` of
`clean_transaction_details` (main.py line 51), in source order. -/
def suffixCodes : List Str :=
  [(" CPM").toList, (" CLP").toList, (" BCC").toList, (" DDR").toList,
   (" BGC").toList, (" STO").toList, (" FT").toList]

/-- Python `details.endswith(suffix)`. -/
def endsWithL (l suf : Str) : Bool := suf.isSuffixOf l

/-- Python `details[:-len(suffix)]` (for a nonempty suffix of `l`). -/
def dropSuffixL (l suf : Str) : Str := l.take (l.length - suf.length)

/-- The `for suffix in suffixes_to_remove` loop body of
`clean_transaction_details` (main.py lines 52-54). -/
def stripFold : List Str → Str → Str
  | [], s => s
  | suf :: rest, s =>
      stripFold rest (if endsWithL s suf then dropSuffixL s suf else s)

/-- One pass over the seven payment-method codes. -/
def stripCodes (s : Str) : Str := stripFold suffixCodes s

/-- Digit character, regex `\d` on ASCII. -/
def isDigitChar (c : Char) : Bool := '0' ≤ c && c ≤ '9'

/-- Uppercase letter, regex `[A-Z]`. -/
def isUpperAlpha (c : Char) : Bool := 'A' ≤ c && c ≤ 'Z'

/-- Consume one or more whitespace characters (regex `\s+`): the head
must be whitespace, and the maximal run is consumed (the character after
a `\s+` in the pattern is never itself whitespace, so backtracking can
never produce a different match). -/
def eatSpaces : Str → Option Str
  | [] => none
  | c :: cs => if isSpaceChar c then some (cs.dropWhile isSpaceChar) else none

/-- Consume one character satisfying `p`. -/
def eatPred (p : Char → Bool) : Str → Option Str
  | [] => none
  | c :: cs => if p c then some cs else none

/-- Matcher for the regex `\s+ON\s+\d{2}\s+[A-Z]{3}` anchored at the head
of `l`; returns the remainder after the match (the `\d{2}` must be
followed by whitespace and the three letters may be followed by
anything, exactly as the regex demands). -/
def matchDateFragment (l : Str) : Option Str :=
  (eatSpaces l).bind (fun r1 =>
  (eatPred (fun c => c = 'O') r1).bind (fun r2 =>
  (eatPred (fun c => c = 'N') r2).bind (fun r3 =>
  (eatSpaces r3).bind (fun r4 =>
  (eatPred isDigitChar r4).bind (fun r5 =>
  (eatPred isDigitChar r5).bind (fun r6 =>
  (eatSpaces r6).bind (fun r7 =>
  (eatPred isUpperAlpha r7).bind (fun r8 =>
  (eatPred isUpperAlpha r8).bind (fun r9 =>
  eatPred isUpperAlpha r9)))))))))

/-- Left-to-right non-overlapping scan of
`re.sub(r'\s+ON\s+\d{2}\s+[A-Z]{3}', '', details)`, with fuel for
structural recursion (fuel `l.length` always suffices: every step
consumes at least one character and one unit of fuel). -/
def removeDateAux : Nat → Str → Str
  | 0, l => l
  | _ + 1, [] => []
  | fuel + 1, c :: cs =>
    match matchDateFragment (c :: cs) with
    | some rest => removeDateAux fuel rest
    | none => c :: removeDateAux fuel cs

/-- `re.sub(r'\s+ON\s+\d{2}\s+[A-Z]{3}', '', details)` (main.py line 56). -/
def removeDateFragments (l : Str) : Str := removeDateAux l.length l

/-- Decidable check that no position of `l` starts a date-fragment match
(positions past the end hold vacuously: the matcher rejects `[]`). -/
def noDateFragmentB (l : Str) : Bool :=
  (List.range (l.length + 1)).all (fun i => (matchDateFragment (l.drop i)).isNone)

/-- `clean_transaction_details` (main.py lines 47-59): upper-case and trim,
strip trailing payment codes, remove date fragments, collapse whitespace. -/
def clean_transaction_details (details : Str) : Str :=
  collapseSpaces (removeDateFragments (stripCodes (pyStrip (pyUpperL details))))

/-- The category store: a Python `dict` from category name to keyword
list, modelled as an insertion-ordered association list. -/
abbrev Store := List (Str × List Str)

/-- The key `"Uncategorized"`. -/
def uncategorizedKey : Str := ("Uncategorized").toList

/-- Keys of the store, in iteration (insertion) order. -/
def storeKeys (s : Store) : List Str := s.map Prod.fst

/-- Python `dict` lookup (`categories[category]`), `none` on a missing
key (a raised `KeyError`). -/
def lookupStore : Store → Str → Option (List Str)
  | [], _ => none
  | (c, kws) :: rest, name => if c = name then some kws else lookupStore rest name

/-- `DEFAULT_CATEGORIES` (main.py lines 17-34). -/
def DEFAULT_CATEGORIES : Store :=
  [(("Uncategorized").toList, []),
   (("Groceries").toList,
    [("COOP").toList, ("TESCO").toList, ("SAINSBURY").toList, ("ALDI").toList,
     ("LIDL").toList, ("ASDA").toList, ("MORRISONS").toList, ("WAITROSE").toList]),
   (("Dining & Pubs").toList,
    [("COSTA").toList, ("STARBUCKS").toList, ("CAFE").toList, ("RESTAURANT").toList,
     ("PUB").toList, ("BAR").toList, ("DORSET ARMS").toList, ("MARINERS INN").toList]),
   (("Transport").toList,
    [("TRANSPORT").toList, ("TAXI").toList, ("UBER").toList, ("TRAIN").toList,
     ("BUS").toList, ("FUEL").toList, ("PARKING").toList]),
   (("Shopping").toList,
    [("AMAZON").toList, ("NEXT").toList, ("MARKS").toList, ("SPENCER").toList,
     ("BOOTS").toList]),
   (("Bills & Utilities").toList,
    [("ELECTRIC").toList, ("GAS").toList, ("WATER").toList, ("COUNCIL TAX").toList,
     ("TV LICENSE").toList, ("INTERNET").toList, ("PHONE").toList, ("GOOGLE ONE").toList]),
   (("Entertainment").toList,
    [("CINEMA").toList, ("NETFLIX").toList, ("SPOTIFY").toList, ("STEAM").toList,
     ("EVE ONLINE").toList]),
   (("Health").toList,
    [("NHS").toList, ("PHARMACY").toList, ("DENTAL").toList, ("OPTICAL").toList]),
   (("Rent & Housing").toList,
    [("RENT").toList, ("MORTGAGE").toList, ("INSURANCE").toList]),
   (("Transfers").toList,
    [("REVOLUT").toList, ("TRANSFER").toList, ("BGC").toList, ("SAVINGS").toList]),
   (("Direct Debits").toList,
    [("DDR").toList, ("DIRECT DEBIT").toList]),
   (("Salary").toList, [("ARCADIA EXPR          SALARY").toList]),
   (("Bonus").toList, [("ARCADIA EXPR          BONUS").toList]),
   (("Interest").toList, [("INTEREST").toList]),
   (("Refunds").toList, [("REFUND").toList, ("REBATE").toList]),
   (("Other Income").toList, [])]

/-- A calendar date as produced by `pd.to_datetime(..., format="%d/%m/%Y")`. -/
structure PyDate where
  year : Nat
  month : Nat
  day : Nat
deriving DecidableEq

/-- One row of the canonical transaction table.  `debitCredit` is the
derived `Debit/Credit` column and `category` the `Category` column. -/
structure Txn where
  date : PyDate
  details : Str
  amount : ℚ
  debitCredit : Str
  category : Str
deriving DecidableEq

/-- Python `needle in hay`: substring containment. -/
def containsL (hay needle : Str) : Bool :=
  (List.range (hay.length + 1)).any (fun i => needle.isPrefixOf (hay.drop i))

/-- The `any(keyword.upper() in cleaned_details for keyword in keywords)`
test of `categorize_transactions` (main.py line 72). -/
def matchesKeywords (kws : List Str) (details : Str) : Bool :=
  kws.any (fun k => containsL (clean_transaction_details details) (pyUpperL k))

/-- `categorize_transactions` (main.py lines 61-75): set every row's
category to `"Uncategorized"`, then for each store entry in iteration
order (skipping `"Uncategorized"` and empty keyword lists) assign the
entry's category to every row whose cleaned details contain one of its
keywords.  Later entries overwrite earlier assignments. -/
def categorize_transactions (store : Store) (df : List Txn) : List Txn :=
  store.foldl
    (fun acc p =>
      if p.1 = uncategorizedKey ∨ p.2 = [] then acc
      else acc.map (fun t =>
        if matchesKeywords p.2 t.details then { t with category := p.1 } else t))
    (df.map (fun t => { t with category := uncategorizedKey }))

/-- The category a row holds after the passes over `store`, starting
from accumulator `a` (the row's current category). -/
def assignedFrom (store : Store) (a : Str) (t : Txn) : Str :=
  store.foldl
    (fun a' p =>
      if p.1 = uncategorizedKey ∨ p.2 = [] then a'
      else if matchesKeywords p.2 t.details then p.1 else a')
    a

/-- The category `categorize_transactions` assigns to a row. -/
def assignedCat (store : Store) (t : Txn) : Str :=
  assignedFrom store uncategorizedKey t

/-- `extract_keyword` (main.py lines 104-106). -/
def extract_keyword (details : Str) : Str := clean_transaction_details details

/-- The keyword computed on main.py line 109:
`extract_keyword(details).strip().upper()`. -/
def keywordOf (details : Str) : Str := pyUpperL (pyStrip (extract_keyword details))

/-- Appending a keyword to one category's list
(`st.session_state.categories[category].append(keyword)`): every entry
whose key is `cat` gets the keyword appended (a Python dict holds each
key once, so this is the single affected entry). -/
def appendKeyword : Store → Str → Str → Store
  | [], _, _ => []
  | (c, l) :: rest, cat, k =>
      (if c = cat then (c, l ++ [k]) else (c, l)) :: appendKeyword rest cat k

/-- `add_keyword_to_category` (main.py lines 108-114).  Returns
`some (store', added)` on normal return and `none` when the category is
missing and the subscript `categories[category]` raises `KeyError`
(Python's `and` short-circuits, so an empty keyword returns `False`
before the subscript is evaluated).  Persistence (`save_categories`)
rewrites the whole mapping and is modelled by the returned store. -/
def add_keyword_to_category (store : Store) (cat details : Str) :
    Option (Store × Bool) :=
  if keywordOf details = [] then some (store, false)
  else
    match lookupStore store cat with
    | none => none
    | some kws =>
      if keywordOf details ∈ kws then some (store, false)
      else some (appendKeyword store cat (keywordOf details), true)

/-- The add-category handler (main.py lines 159-161): insert a new key
with an empty keyword list unless already present. -/
def addCategory (store : Store) (name : Str) : Store :=
  if name ∈ storeKeys store then store else store ++ [(name, [])]

/-- Stores reachable in the application's lifetime: the built-in default,
extended by the add-category handler and successful `add_keyword` calls.
The persisted `categories.json` is only ever written by `save_categories`
with the full current mapping of a single-writer session, so a store
loaded from the file is itself one of these. -/
inductive ReachableStore : Store → Prop
  | default : ReachableStore DEFAULT_CATEGORIES
  | addCat (s : Store) (name : Str) :
      ReachableStore s → ReachableStore (addCategory s name)
  | addKw (s : Store) (cat details : Str) (s' : Store) (b : Bool) :
      ReachableStore s → add_keyword_to_category s cat details = some (s', b) →
      ReachableStore s'

/-- A parsed CSV: header cells and data rows, as produced by
`pd.read_csv(file, skipinitialspace=True)` (cells carry no leading
whitespace after a delimiter). -/
structure Csv where
  headers : List Str
  rows : List (List Str)

/-- A dataframe as a column-name → cell-column association list. -/
abbrev Df := List (Str × List Str)

/-- Assemble the dataframe columns from headers and rows: the first
column is the heads of the rows, the rest come from the tails (the rows
are rectangular, which `loadRaw` checks first). -/
def buildDf : List Str → List (List Str) → Df
  | [], _ => []
  | h :: hs, rows =>
      (h, rows.map (fun r => r.headD [])) :: buildDf hs (rows.map (fun r => r.tail))

/-- Column subscript `df[name]`; a missing column raises `KeyError`. -/
def dfGet (df : Df) (name : Str) : Except Str (List Str) :=
  match lookupStore df name with
  | some col => Except.ok col
  | none => Except.error ((("KeyError: ")).toList ++ name)

/-- The Barclays-format branch (main.py lines 83-86): when both
`Subcategory` and `Memo` columns are present, project to
`{Date, Amount, Memo}` and rename `Memo` to `Details`. -/
def barclaysAdjust (df : Df) : Except Str Df :=
  if (("Subcategory")).toList ∈ storeKeys df ∧ (("Memo")).toList ∈ storeKeys df then
    match dfGet df ((("Date")).toList) with
    | Except.error e => Except.error e
    | Except.ok d =>
      match dfGet df ((("Amount")).toList) with
      | Except.error e => Except.error e
      | Except.ok a =>
        match dfGet df ((("Memo")).toList) with
        | Except.error e => Except.error e
        | Except.ok m =>
          Except.ok [((("Date")).toList, d), ((("Amount")).toList, a),
                     ((("Details")).toList, m)]
  else Except.ok df

/-- Numeric value of a digit character. -/
def digitVal (c : Char) : Nat := c.toNat - ('0').toNat

/-- Value of a nonempty all-digit string. -/
def digitsVal (l : Str) : Option Nat :=
  if l = [] then none
  else if l.all isDigitChar then
    some (l.foldl (fun n c => 10 * n + digitVal c) 0)
  else none

/-- Python `float(s)` for plain decimal literals (optional sign, digits
with at most one point), the only amount format the program's CSVs use;
any other string is a raised `ValueError`. -/
def parseFloat (s : Str) : Except Str ℚ :=
  let t := pyStrip s
  let sign : ℚ := match t with
    | '-' :: _ => -1
    | _ => 1
  let u : Str := match t with
    | '-' :: r => r
    | '+' :: r => r
    | _ => t
  let ip := u.takeWhile (fun c => c ≠ '.')
  let rest := u.dropWhile (fun c => c ≠ '.')
  let fail : Except Str ℚ :=
    Except.error ((("could not convert string to float: ")).toList ++ s)
  match rest with
  | [] =>
    match digitsVal ip with
    | some n => Except.ok (sign * (n : ℚ))
    | none => fail
  | _ :: fr =>
    if ip.all isDigitChar ∧ fr.all isDigitChar ∧ (ip ≠ [] ∨ fr ≠ []) then
      let ipv : ℚ := (ip.foldl (fun n c => 10 * n + digitVal c) 0 : Nat)
      let frv : ℚ := (fr.foldl (fun n c => 10 * n + digitVal c) 0 : Nat)
      Except.ok (sign * (ipv + frv / ((10 : ℚ) ^ fr.length)))
    else fail

/-- `pd.to_datetime(x, format="%d/%m/%Y")` on one cell: one or two day
digits, `/`, one or two month digits, `/`, four year digits, with the
day and month in calendar range; anything else raises. -/
def parseDate (s : Str) : Except Str PyDate :=
  let fail : Except Str PyDate :=
    Except.error ((("time data does not match format %d/%m/%Y: ")).toList ++ s)
  let dpart := s.takeWhile isDigitChar
  let r1 := s.dropWhile isDigitChar
  match r1 with
  | '/' :: r2 =>
    let mpart := r2.takeWhile isDigitChar
    let r3 := r2.dropWhile isDigitChar
    match r3 with
    | '/' :: r4 =>
      let ypart := r4.takeWhile isDigitChar
      let r5 := r4.dropWhile isDigitChar
      match digitsVal dpart, digitsVal mpart, digitsVal ypart with
      | some dv, some mv, some yv =>
        if r5 = [] ∧ dpart.length ≤ 2 ∧ mpart.length ≤ 2 ∧ ypart.length = 4 ∧
            1 ≤ dv ∧ dv ≤ 31 ∧ 1 ≤ mv ∧ mv ≤ 12 then
          Except.ok ⟨yv, mv, dv⟩
        else fail
      | _, _, _ => fail
    | _ => fail
  | _ => fail

/-- `df["Amount"].astype(float)` over the column. -/
def parseAllFloats : List Str → Except Str (List ℚ)
  | [] => Except.ok []
  | s :: r =>
    match parseFloat s with
    | Except.error e => Except.error e
    | Except.ok q =>
      match parseAllFloats r with
      | Except.error e => Except.error e
      | Except.ok qs => Except.ok (q :: qs)

/-- `pd.to_datetime(df["Date"], format="%d/%m/%Y")` over the column. -/
def parseAllDates : List Str → Except Str (List PyDate)
  | [] => Except.ok []
  | s :: r =>
    match parseDate s with
    | Except.error e => Except.error e
    | Except.ok d =>
      match parseAllDates r with
      | Except.error e => Except.error e
      | Except.ok ds => Except.ok (d :: ds)

/-- The lambda of main.py line 90:
`"Credit" if x > 0 else "Debit"`. -/
def debitCreditOf (x : ℚ) : Str :=
  if x > 0 then (("Credit")).toList else (("Debit")).toList

/-- Zip the typed columns back into rows, deriving `Debit/Credit`; the
`Category` column does not exist yet (it is created by the categorizer). -/
def mkRows (dates : List PyDate) (dets : List Str) (amts : List ℚ) : List Txn :=
  (dates.zip (dets.zip amts)).map
    (fun p => ⟨p.1, p.2.1, p.2.2, debitCreditOf p.2.2, []⟩)

/-- The body of the `try` block of `load_transactions` (main.py lines
79-99), with every fallible pandas operation returning `Except.error`
for a raised exception: tokenization, the Barclays projection, the
`Amount` and `Date` subscripts and coercions, and the required-columns
check (at that point `Date`, `Amount` and `Debit/Credit` always exist,
so only a missing `Details` can trigger the `ValueError`). -/
def loadRaw (store : Store) (csv : Csv) : Except Str (List Txn) :=
  if csv.rows.any (fun r => r.length ≠ csv.headers.length) then
    Except.error ((("Error tokenizing data")).toList)
  else
    match barclaysAdjust (buildDf (csv.headers.map pyStrip) csv.rows) with
    | Except.error e => Except.error e
    | Except.ok df =>
      match dfGet df ((("Amount")).toList) with
      | Except.error e => Except.error e
      | Except.ok amtS =>
        match parseAllFloats amtS with
        | Except.error e => Except.error e
        | Except.ok amts =>
          match dfGet df ((("Date")).toList) with
          | Except.error e => Except.error e
          | Except.ok dateS =>
            match parseAllDates dateS with
            | Except.error e => Except.error e
            | Except.ok dates =>
              match dfGet df ((("Details")).toList) with
              | Except.error _ =>
                Except.error ((("Missing required columns. File must contain: [Date, Details, Amount, Debit/Credit]")).toList)
              | Except.ok dets =>
                Except.ok (categorize_transactions store (mkRows dates dets amts))

/-- `load_transactions` (main.py lines 77-102): the `try`/`except` maps
any raised error to `st.error(...)` plus a `None` result.  The first
component is the returned table, the second the error message shown. -/
def load_transactions (store : Store) (csv : Csv) :
    Option (List Txn) × Option Str :=
  match loadRaw store csv with
  | Except.ok t => (some t, none)
  | Except.error e => (none, some ((("Error processing file: ")).toList ++ e))

/-- `calculate_savings_projections` (main.py lines 317-328).  The mean of
the per-month sums equals the overall total divided by the number of
distinct (year, month) groups, and `monthly_net.sum()` equals the overall
total, so only those aggregates are materialized. -/
def calculate_savings_projections (df : List Txn) : List ℚ :=
  let months := (df.map (fun t => (t.date.year, t.date.month))).dedup
  let total : ℚ := (df.map Txn.amount).sum
  let avgMonthlyNet : ℚ := total / (months.length : ℚ)
  (List.range 12).foldl (fun acc _ => acc ++ [acc.getLastD 0 + avgMonthlyNet]) [total]

/-- Numeric division as the savings-goal code performs it: at a zero
denominator Python floats raise `ZeroDivisionError` and numpy floats
yield a non-finite `inf`/`nan`; either way no defined months-to-goal
number exists, modelled as `none`. -/
def pyDiv (a b : ℚ) : Option ℚ := if b = 0 then none else some (a / b)

/-- The savings-goal computation of main.py lines 295-297 (executed when
`goal_amount > 0`): `current_savings = projections[-1]`,
`avg_monthly_net = projections[-1] / 12`,
`months_to_goal = (goal_amount - current_savings) / avg_monthly_net`.
There is no guard on `avg_monthly_net`. -/
def monthsToGoal (goalAmount : ℚ) (projections : List ℚ) : Option ℚ :=
  let currentSavings := projections.getLastD 0
  let avgMonthlyNet := currentSavings / 12
  pyDiv (goalAmount - currentSavings) avgMonthlyNet

/-- Fixture for the categorizer tie-break claims: the spec's example
store order A:["FOO"], B:["FOOBAR"]. -/
def storeC1 : Store :=
  [(uncategorizedKey, []),
   (("A").toList, [("FOO").toList]),
   (("B").toList, [("FOOBAR").toList])]

/-- Fixture transaction whose details contain keywords of both A and B. -/
def txnC1 : Txn :=
  ⟨⟨2024, 1, 1⟩, ("FOOBAR").toList, -5, ("Debit").toList, []⟩

/-- Fixture table whose amounts cancel to a zero monthly net. -/
def dfC2 : List Txn :=
  [⟨⟨2024, 1, 5⟩, ("SALARY").toList, 10, ("Credit").toList, []⟩,
   ⟨⟨2024, 1, 20⟩, ("RENT").toList, -10, ("Debit").toList, []⟩]

/-- Fixture store for loader round-trip witnesses. -/
def tinyStore : Store :=
  [(uncategorizedKey, []), (("Groceries").toList, [("TESCO").toList])]

/-- Fixture CSV with a single well-formed row. -/
def csvW : Csv :=
  ⟨[("Date").toList, ("Details").toList, ("Amount").toList],
   [[("15/03/2024").toList, ("TESCO THING").toList, ("7").toList]]⟩

/-- The transaction `csvW` loads to under `tinyStore` (the amount is kept
in the exact arithmetic form the loader produces). -/
def wtxnW : Txn :=
  ⟨⟨2024, 3, 15⟩, ("TESCO THING").toList, (1 : ℚ) * ((7 : ℕ) : ℚ),
   debitCreditOf ((1 : ℚ) * ((7 : ℕ) : ℚ)), ("Groceries").toList⟩

/-- Occurrence count of a keyword in a keyword list. -/
def countKw (l : List Str) (k : Str) : Nat :=
  (l.filter (fun x => x = k)).length

theorem assignedFrom_append (l1 l2 : Store) (a : Str) (t : Txn) :
    assignedFrom (l1 ++ l2) a t = assignedFrom l2 (assignedFrom l1 a t) t :=
  List.foldl_append _ _ _ _

theorem assignedFrom_cons (p : Str × List Str) (l : Store) (a : Str) (t : Txn) :
    assignedFrom (p :: l) a t =
      assignedFrom l
        (if p.1 = uncategorizedKey ∨ p.2 = [] then a
         else if matchesKeywords p.2 t.details then p.1 else a) t := rfl

theorem assignedFrom_no_match (l : Store) (a : Str) (t : Txn)
    (h : ∀ p ∈ l, p.1 ≠ uncategorizedKey → p.2 ≠ [] →
      matchesKeywords p.2 t.details = false) :
    assignedFrom l a t = a := by
  induction l generalizing a with
  | nil => rfl
  | cons p l ih =>
    rw [assignedFrom_cons]
    by_cases hg : p.1 = uncategorizedKey ∨ p.2 = []
    · rw [if_pos hg]
      exact ih a (fun q hq => h q (List.mem_cons_of_mem _ hq))
    · rcases not_or.1 hg with ⟨h1, h2⟩
      rw [if_neg hg, h p (List.mem_cons_self _ _) h1 h2,
        if_neg Bool.false_ne_true]
      exact ih a (fun q hq => h q (List.mem_cons_of_mem _ hq))

theorem categorize_fold (s : Store) (df : List Txn) (g : Txn → Str) :
    s.foldl
      (fun acc p =>
        if p.1 = uncategorizedKey ∨ p.2 = [] then acc
        else acc.map (fun t =>
          if matchesKeywords p.2 t.details then { t with category := p.1 } else t))
      (df.map (fun t => { t with category := g t })) =
    df.map (fun t => { t with category := assignedFrom s (g t) t }) := by
  induction s generalizing g with
  | nil => rfl
  | cons p s ih =>
    simp only [List.foldl_cons]
    by_cases hg : p.1 = uncategorizedKey ∨ p.2 = []
    · rw [if_pos hg]
      rw [ih g]
      apply List.map_congr_left
      intro t _
      rw [assignedFrom_cons, if_pos hg]
    · rw [if_neg hg]
      rw [List.map_map]
      have hmap :
          ((fun t =>
            if matchesKeywords p.2 t.details then { t with category := p.1 } else t) ∘
            (fun t => { t with category := g t })) =
          (fun t : Txn =>
            { t with category :=
              (if matchesKeywords p.2 t.details then p.1 else g t) }) := by
        funext t
        by_cases hm : matchesKeywords p.2 t.details
        · simp [Function.comp, hm]
        · simp [Function.comp, hm]
      rw [hmap, ih]
      apply List.map_congr_left
      intro t _
      rw [assignedFrom_cons, if_neg hg]

theorem categorize_eq_map (s : Store) (df : List Txn) :
    categorize_transactions s df =
      df.map (fun t => { t with category := assignedCat s t }) :=
  categorize_fold s df (fun _ => uncategorizedKey)

/-- C10: `categorize_transactions` changes only the `Category` column:
row count, row order, and the `Date`, `Details`, `Amount` and
`Debit/Credit` fields of every row are unchanged. -/
theorem categorize_frame_effect (store : Store) (df : List Txn) :
    (categorize_transactions store df).map
        (fun t => (t.date, t.details, t.amount, t.debitCredit)) =
      df.map (fun t => (t.date, t.details, t.amount, t.debitCredit)) := by
  rw [categorize_eq_map, List.map_map]
  rfl

/-- C1 fails on the code: with store order A:["FOO"], B:["FOOBAR"], a
transaction whose details are "FOOBAR" ends up in B (the last matching
category), not in A as the first-match-wins claim states. -/
theorem categorize_not_first_match_cex :
    (categorize_transactions storeC1 [txnC1]).map Txn.category = [("B").toList] ∧
      ("B").toList ≠ ("A").toList := by
  constructor
  · rfl
  · decide

/-- C1 amended: the categorizer re-evaluates every transaction against
every later category and a later match overwrites an earlier one, so the
last matching category in store iteration order wins: if the store splits
as `pre ++ (B, kwsB) :: post` where B is a real category with a matching
keyword and no category after B matches, the transaction is assigned B. -/
theorem categorize_last_match_wins (store pre post : Store) (B : Str)
    (kwsB : List Str) (t : Txn)
    (hs : store = pre ++ (B, kwsB) :: post)
    (hB : B ≠ uncategorizedKey) (hk : kwsB ≠ [])
    (hm : matchesKeywords kwsB t.details = true)
    (hpost : ∀ p ∈ post, p.1 ≠ uncategorizedKey → p.2 ≠ [] →
      matchesKeywords p.2 t.details = false) :
    assignedCat store t = B ∧
      categorize_transactions store [t] = [{ t with category := B }] := by
  have hcat : assignedCat store t = B := by
    rw [hs]
    show assignedFrom (pre ++ (B, kwsB) :: post) uncategorizedKey t = B
    rw [assignedFrom_append, assignedFrom_cons]
    have hg : ¬((B, kwsB).1 = uncategorizedKey ∨ (B, kwsB).2 = []) := by
      push_neg
      exact ⟨hB, hk⟩
    rw [if_neg hg]
    simp only [hm, if_true]
    exact assignedFrom_no_match post B t hpost
  refine ⟨hcat, ?_⟩
  rw [categorize_eq_map]
  simp [hcat]

theorem categorize_last_match_wins_witness :
    assignedCat storeC1 txnC1 = ("B").toList ∧
      categorize_transactions storeC1 [txnC1] =
        [{ txnC1 with category := ("B").toList }] :=
  categorize_last_match_wins storeC1
    [(uncategorizedKey, []), (("A").toList, [("FOO").toList])] [] (("B").toList)
    [("FOOBAR").toList] txnC1 (by decide) (by decide) (by decide) (by decide)
    (by decide)

/-- C2 fails on the code: for a table whose transactions cancel to a zero
monthly net (a reachable input: +10 and -10 in the same month), the
projections are all zero, the positive-goal branch is taken, and the
months-to-goal division runs with a zero denominator with no guard, so no
defined months-to-goal value is produced. -/
theorem months_to_goal_division_unguarded :
    calculate_savings_projections dfC2 =
        [0, 0, 0, 0, 0, 0, 0, 0, 0, 0, 0, 0, 0] ∧
      (100 : ℚ) > 0 ∧
      (calculate_savings_projections dfC2).getLastD 0 / 12 = 0 ∧
      monthsToGoal 100 (calculate_savings_projections dfC2) = none := by
  have h : calculate_savings_projections dfC2 =
      [0, 0, 0, 0, 0, 0, 0, 0, 0, 0, 0, 0, 0] := by
    simp [calculate_savings_projections, dfC2, List.range_succ]
  refine ⟨h, by norm_num, ?_, ?_⟩
  · rw [h]
    norm_num
  · rw [h]
    simp [monthsToGoal, pyDiv]

/-- C3 fails on the code: adding a nonempty keyword to a category that is
not in the store evaluates `categories[category]` and raises `KeyError`
(modelled `none`), rather than returning a false/failure signal. -/
theorem add_keyword_missing_category_cex :
    add_keyword_to_category DEFAULT_CATEGORIES (("Pets").toList)
      (("TESCO").toList) = none := by decide

/-- C3 amended: with a category name absent from the store, `add_keyword`
returns a false signal without touching the store only when the
normalized keyword is empty (Python's `and` short-circuits before the
dict subscript); with a nonempty normalized keyword the dict subscript
raises an uncaught `KeyError`, which is fatal to the handler. -/
theorem add_keyword_missing_category (s : Store) (cat details : Str)
    (h : lookupStore s cat = none) :
    (keywordOf details = [] →
      add_keyword_to_category s cat details = some (s, false)) ∧
    (keywordOf details ≠ [] →
      add_keyword_to_category s cat details = none) := by
  constructor
  · intro hk
    simp [add_keyword_to_category, hk]
  · intro hk
    simp [add_keyword_to_category, hk, h]

theorem add_keyword_missing_category_witness :
    lookupStore DEFAULT_CATEGORIES (("Pets").toList) = none ∧
      add_keyword_to_category DEFAULT_CATEGORIES (("Pets").toList)
        (("LIDL").toList) = none :=
  ⟨by decide,
   (add_keyword_missing_category DEFAULT_CATEGORIES (("Pets").toList)
      (("LIDL").toList) (by decide)).2 (by decide)⟩

/-- Nothing is stripped by a pass over suffixes none of which ends the
string. -/
theorem stripFold_no_match (l : List Str) (s : Str)
    (h : ∀ suf ∈ l, endsWithL s suf = false) :
    stripFold l s = s := by
  induction l with
  | nil => rfl
  | cons a l ih =>
    show stripFold l (if endsWithL s a then dropSuffixL s a else s) = s
    rw [h a (List.mem_cons_self _ _), if_neg Bool.false_ne_true]
    exact ih (fun suf hs => h suf (List.mem_cons_of_mem _ hs))

/-- C4 fails on the code: the suffix loop makes a single pass over the
code list in the order CPM, CLP, BCC, DDR, BGC, STO, FT, checking each
code once against the current string.  Stripping a code can expose
another code that occurs later in that list, which the same pass then
also strips: "SHOP CLP CPM" loses " CPM" and then " CLP", two stacked
codes, where the claim allows exactly one. -/
theorem clean_two_codes_stripped_cex :
    clean_transaction_details (("SHOP CLP CPM").toList) = ("SHOP").toList ∧
      ("SHOP").toList ≠ ("SHOP CLP").toList := by
  exact ⟨by decide, by decide⟩

/-- C4 amended: the suffix pass strips exactly one trailing code whenever
the input ends with exactly one of the seven codes and the stripped
remainder ends with none of them; when stripping exposes a code listed
later in CPM, CLP, BCC, DDR, BGC, STO, FT, that code is stripped as
well (see the counterexample). -/
theorem stripCodes_single_trailing_code (l : List Str) (s c : Str)
    (hc : c ∈ l) (h1 : endsWithL s c = true)
    (h2 : ∀ c' ∈ l, c' ≠ c → endsWithL s c' = false)
    (h3 : ∀ c' ∈ l, endsWithL (dropSuffixL s c) c' = false) :
    stripFold l s = dropSuffixL s c := by
  induction l with
  | nil => cases hc
  | cons a l ih =>
    by_cases ha : a = c
    · subst ha
      show stripFold l (if endsWithL s a then dropSuffixL s a else s) =
        dropSuffixL s a
      rw [h1, if_pos rfl]
      exact stripFold_no_match l _
        (fun suf hs => h3 suf (List.mem_cons_of_mem _ hs))
    · have hc' : c ∈ l := by
        rcases List.mem_cons.1 hc with rfl | hm
        · exact absurd rfl ha
        · exact hm
      show stripFold l (if endsWithL s a then dropSuffixL s a else s) =
        dropSuffixL s c
      rw [h2 a (List.mem_cons_self _ _) ha, if_neg Bool.false_ne_true]
      exact ih hc' (fun c' hm hne => h2 c' (List.mem_cons_of_mem _ hm) hne)
        (fun c' hm => h3 c' (List.mem_cons_of_mem _ hm))

theorem stripCodes_single_trailing_code_witness :
    endsWithL (("TESCO STORES DDR").toList) ((" DDR").toList) = true ∧
      stripCodes (("TESCO STORES DDR").toList) = ("TESCO STORES").toList := by
  constructor
  · decide
  · show stripFold suffixCodes (("TESCO STORES DDR").toList) =
      ("TESCO STORES").toList
    rw [stripCodes_single_trailing_code suffixCodes (("TESCO STORES DDR").toList)
      ((" DDR").toList) (by decide) (by decide) (by decide) (by decide)]
    decide

/-- C7: the loader is total with handled failures: for every store and
every input, it returns either a table and no error message, or no table
and an error message (the `except` branch); no failure of tokenization,
format projection, amount or date coercion, or the required-columns
check escapes the handler (and the loader reads but never modifies the
session's store). -/
theorem load_transactions_never_crashes (store : Store) (csv : Csv) :
    (∃ t, load_transactions store csv = (some t, none)) ∨
      (∃ msg, load_transactions store csv = (none, some msg)) := by
  unfold load_transactions
  cases loadRaw store csv with
  | ok t => exact Or.inl ⟨t, rfl⟩
  | error e => exact Or.inr ⟨_, rfl⟩

theorem storeKeys_appendKeyword (s : Store) (cat k : Str) :
    storeKeys (appendKeyword s cat k) = storeKeys s := by
  induction s with
  | nil => rfl
  | cons p s ih =>
    obtain ⟨c, l⟩ := p
    by_cases hc : c = cat
    · simp only [appendKeyword, if_pos hc, storeKeys, List.map_cons]
      rw [show List.map Prod.fst (appendKeyword s cat k) = storeKeys s from ih]
      rfl
    · simp only [appendKeyword, if_neg hc, storeKeys, List.map_cons]
      rw [show List.map Prod.fst (appendKeyword s cat k) = storeKeys s from ih]
      rfl

theorem mem_storeKeys_addCategory (s : Store) (name : Str)
    (h : uncategorizedKey ∈ storeKeys s) :
    uncategorizedKey ∈ storeKeys (addCategory s name) := by
  unfold addCategory
  by_cases hm : name ∈ storeKeys s
  · rw [if_pos hm]
    exact h
  · rw [if_neg hm]
    unfold storeKeys
    rw [List.map_append]
    exact List.mem_append_left _ h

theorem add_keyword_storeKeys (s : Store) (cat details : Str) (s' : Store)
    (b : Bool) (h : add_keyword_to_category s cat details = some (s', b)) :
    storeKeys s' = storeKeys s := by
  unfold add_keyword_to_category at h
  split at h
  · rw [Option.some.injEq, Prod.mk.injEq] at h
    rw [← h.1]
  · split at h
    · cases h
    · split at h
      · rw [Option.some.injEq, Prod.mk.injEq] at h
        rw [← h.1]
      · rw [Option.some.injEq, Prod.mk.injEq] at h
        rw [← h.1]
        exact storeKeys_appendKeyword s cat (keywordOf details)

theorem assignedFrom_mem (l : Store) (a : Str) (t : Txn) :
    assignedFrom l a t = a ∨ assignedFrom l a t ∈ storeKeys l := by
  induction l generalizing a with
  | nil => exact Or.inl rfl
  | cons p l ih =>
    rw [assignedFrom_cons]
    have hstep :
        (if p.1 = uncategorizedKey ∨ p.2 = [] then a
         else if matchesKeywords p.2 t.details then p.1 else a) = a ∨
        (if p.1 = uncategorizedKey ∨ p.2 = [] then a
         else if matchesKeywords p.2 t.details then p.1 else a) = p.1 := by
      split_ifs <;> simp
    have hkeys : storeKeys (p :: l) = p.1 :: storeKeys l := rfl
    rcases ih (if p.1 = uncategorizedKey ∨ p.2 = [] then a
      else if matchesKeywords p.2 t.details then p.1 else a) with h | h
    · rw [h]
      rcases hstep with h2 | h2
      · exact Or.inl h2
      · rw [h2, hkeys]
        exact Or.inr (List.mem_cons_self _ _)
    · rw [hkeys]
      exact Or.inr (List.mem_cons_of_mem _ h)

/-- C6: in every reachable store — the built-in default, or anything the
session (and hence the persisted file it rewrites wholesale) can produce
from it via the add-category handler and `add_keyword` — the key
`"Uncategorized"` is present, and after categorization every
transaction's category is a key of the store. -/
theorem uncategorized_key_invariant (s : Store) (h : ReachableStore s) :
    uncategorizedKey ∈ storeKeys s ∧
      ∀ df t, t ∈ categorize_transactions s df → t.category ∈ storeKeys s := by
  have hkey : uncategorizedKey ∈ storeKeys s := by
    induction h with
    | default => decide
    | addCat s name hs ih => exact mem_storeKeys_addCategory s name ih
    | addKw s cat details s' b hs heq ih =>
      rw [add_keyword_storeKeys s cat details s' b heq]
      exact ih
  refine ⟨hkey, ?_⟩
  intro df t ht
  rw [categorize_eq_map] at ht
  obtain ⟨t0, ht0, rfl⟩ := List.mem_map.1 ht
  show assignedCat s t0 ∈ storeKeys s
  rcases assignedFrom_mem s uncategorizedKey t0 with h0 | h0
  · rw [assignedCat, h0]
    exact hkey
  · exact h0

theorem uncategorized_key_invariant_witness :
    uncategorizedKey ∈ storeKeys DEFAULT_CATEGORIES ∧
      ∀ df t, t ∈ categorize_transactions DEFAULT_CATEGORIES df →
        t.category ∈ storeKeys DEFAULT_CATEGORIES :=
  uncategorized_key_invariant DEFAULT_CATEGORIES ReachableStore.default

theorem lookup_appendKeyword (s : Store) (cat k : Str) (kws : List Str)
    (h : lookupStore s cat = some kws) :
    lookupStore (appendKeyword s cat k) cat = some (kws ++ [k]) := by
  induction s with
  | nil => cases h
  | cons p s ih =>
    obtain ⟨c, l⟩ := p
    by_cases hc : c = cat
    · subst hc
      have hlk : l = kws := by simpa [lookupStore] using h
      subst hlk
      show lookupStore (appendKeyword ((c, l) :: s) c k) c = some (l ++ [k])
      rw [appendKeyword, if_pos rfl, lookupStore, if_pos rfl]
    · have h2 : lookupStore s cat = some kws := by
        simpa [lookupStore, hc] using h
      show lookupStore (appendKeyword ((c, l) :: s) cat k) cat = some (kws ++ [k])
      rw [appendKeyword, if_neg hc, lookupStore, if_neg hc]
      exact ih h2

theorem countKw_eq_zero (l : List Str) (k : Str) (h : k ∉ l) :
    countKw l k = 0 := by
  induction l with
  | nil => rfl
  | cons a l ih =>
    have ha : ¬(a = k) := fun e => h (e ▸ List.mem_cons_self a l)
    have hl : k ∉ l := fun hm => h (List.mem_cons_of_mem _ hm)
    simp [countKw, List.filter_cons, ha] at ih ⊢
    exact ih hl

theorem countKw_nodup_mem (l : List Str) (k : Str) (hnd : l.Nodup)
    (h : k ∈ l) : countKw l k = 1 := by
  induction l with
  | nil => cases h
  | cons a l ih =>
    rcases List.nodup_cons.1 hnd with ⟨hna, hnl⟩
    rcases List.mem_cons.1 h with rfl | hm
    · have h0 : countKw l k = 0 := countKw_eq_zero l k hna
      simp [countKw, List.filter_cons] at h0 ⊢
      exact h0
    · have ha : ¬(a = k) := fun e => hna (e ▸ hm)
      simp [countKw, List.filter_cons, ha] at ih ⊢
      exact ih hnl hm

theorem countKw_append_self (l : List Str) (k : Str) (h : k ∉ l) :
    countKw (l ++ [k]) k = 1 := by
  have h0 := countKw_eq_zero l k h
  simp [countKw, List.filter_append] at h0 ⊢
  exact h0

/-- C9: for an existing, duplicate-free category (the store invariant:
keyword lists are set-like), two `add_keyword` calls with the same
details leave the normalized keyword present exactly once, the second
call reports not-added, and an empty normalized keyword is never
appended (the store is returned unchanged). -/
theorem add_keyword_idempotent (s : Store) (cat details : Str)
    (kws : List Str) (hlk : lookupStore s cat = some kws)
    (hnd : kws.Nodup) :
    ∃ s1 b1, add_keyword_to_category s cat details = some (s1, b1) ∧
      ∃ s2, add_keyword_to_category s1 cat details = some (s2, false) ∧
        (keywordOf details = [] → s2 = s ∧ b1 = false) ∧
        (keywordOf details ≠ [] →
          countKw ((lookupStore s2 cat).getD []) (keywordOf details) = 1) := by
  by_cases hk : keywordOf details = []
  · refine ⟨s, false, by simp [add_keyword_to_category, hk], s,
      by simp [add_keyword_to_category, hk], fun _ => ⟨rfl, rfl⟩,
      fun hne => absurd hk hne⟩
  · by_cases hmem : keywordOf details ∈ kws
    · refine ⟨s, false, ?_, s, ?_, fun he => absurd he hk, fun _ => ?_⟩
      · simp [add_keyword_to_category, hk, hlk, hmem]
      · simp [add_keyword_to_category, hk, hlk, hmem]
      · rw [hlk]
        exact countKw_nodup_mem kws (keywordOf details) hnd hmem
    · have hl2 := lookup_appendKeyword s cat (keywordOf details) kws hlk
      refine ⟨appendKeyword s cat (keywordOf details), true, ?_,
        appendKeyword s cat (keywordOf details), ?_,
        fun he => absurd he hk, fun _ => ?_⟩
      · simp [add_keyword_to_category, hk, hlk, hmem]
      · simp [add_keyword_to_category, hk, hl2]
      · rw [hl2]
        show countKw (kws ++ [keywordOf details]) (keywordOf details) = 1
        exact countKw_append_self kws (keywordOf details) hmem

theorem add_keyword_idempotent_witness :
    lookupStore DEFAULT_CATEGORIES (("Groceries").toList) =
        some [("COOP").toList, ("TESCO").toList, ("SAINSBURY").toList,
          ("ALDI").toList, ("LIDL").toList, ("ASDA").toList,
          ("MORRISONS").toList, ("WAITROSE").toList] ∧
      (∃ s1 b1, add_keyword_to_category DEFAULT_CATEGORIES
          (("Groceries").toList) (("Lidl Extra").toList) = some (s1, b1) ∧
        ∃ s2, add_keyword_to_category s1 (("Groceries").toList)
            (("Lidl Extra").toList) = some (s2, false) ∧
          (keywordOf (("Lidl Extra").toList) = [] →
            s2 = DEFAULT_CATEGORIES ∧ b1 = false) ∧
          (keywordOf (("Lidl Extra").toList) ≠ [] →
            countKw ((lookupStore s2 (("Groceries").toList)).getD [])
              (keywordOf (("Lidl Extra").toList)) = 1)) :=
  ⟨by decide,
   add_keyword_idempotent DEFAULT_CATEGORIES (("Groceries").toList)
     (("Lidl Extra").toList)
     [("COOP").toList, ("TESCO").toList, ("SAINSBURY").toList,
      ("ALDI").toList, ("LIDL").toList, ("ASDA").toList,
      ("MORRISONS").toList, ("WAITROSE").toList] (by decide) (by decide)⟩

theorem mem_mkRows (dates : List PyDate) (dets : List Str) (amts : List ℚ)
    (t0 : Txn) (h : t0 ∈ mkRows dates dets amts) :
    t0.debitCredit = debitCreditOf t0.amount := by
  unfold mkRows at h
  obtain ⟨p, hp, rfl⟩ := List.mem_map.1 h
  rfl

theorem load_success_shape (store : Store) (csv : Csv) (txs : List Txn)
    (h : load_transactions store csv = (some txs, none)) :
    ∃ dates dets amts,
      txs = categorize_transactions store (mkRows dates dets amts) := by
  unfold load_transactions at h
  cases hr : loadRaw store csv with
  | error e =>
    rw [hr] at h
    simp at h
  | ok t =>
    rw [hr] at h
    rw [Prod.mk.injEq, Option.some.injEq] at h
    obtain ⟨rfl, -⟩ := h
    unfold loadRaw at hr
    split at hr
    · cases hr
    · split at hr
      · cases hr
      · split at hr
        · cases hr
        · split at hr
          · cases hr
          · split at hr
            · cases hr
            · split at hr
              · cases hr
              · split at hr
                · cases hr
                · rw [Except.ok.injEq] at hr
                  exact ⟨_, _, _, hr.symm⟩

/-- C8: every successfully loaded transaction carries
`Debit/Credit = "Credit"` iff its amount is strictly positive, and an
amount of zero yields `"Debit"`. -/
theorem loaded_direction_rule (store : Store) (csv : Csv) (txs : List Txn)
    (t : Txn) (h : load_transactions store csv = (some txs, none))
    (ht : t ∈ txs) :
    (t.debitCredit = ("Credit").toList ↔ t.amount > 0) ∧
      (t.amount = 0 → t.debitCredit = ("Debit").toList) := by
  obtain ⟨dates, dets, amts, rfl⟩ := load_success_shape store csv txs h
  rw [categorize_eq_map] at ht
  obtain ⟨t0, ht0, rfl⟩ := List.mem_map.1 ht
  have hdc : t0.debitCredit = debitCreditOf t0.amount :=
    mem_mkRows dates dets amts t0 ht0
  have hne : ("Debit").toList ≠ ("Credit").toList := by decide
  constructor
  · show t0.debitCredit = ("Credit").toList ↔ t0.amount > 0
    rw [hdc]
    unfold debitCreditOf
    by_cases hpos : t0.amount > 0
    · rw [if_pos hpos]
      exact ⟨fun _ => hpos, fun _ => rfl⟩
    · rw [if_neg hpos]
      exact ⟨fun he => absurd he hne, fun hp => absurd hp hpos⟩
  · intro h0
    show t0.debitCredit = ("Debit").toList
    rw [hdc]
    unfold debitCreditOf
    rw [if_neg (by rw [h0]; exact lt_irrefl 0)]

theorem loaded_direction_rule_witness :
    load_transactions tinyStore csvW = (some [wtxnW], none) ∧
      wtxnW ∈ [wtxnW] ∧
      ((wtxnW.debitCredit = ("Credit").toList ↔ wtxnW.amount > 0) ∧
        (wtxnW.amount = 0 → wtxnW.debitCredit = ("Debit").toList)) :=
  ⟨rfl, List.mem_singleton_self wtxnW,
   loaded_direction_rule tinyStore csvW [wtxnW] wtxnW rfl
     (List.mem_singleton_self wtxnW)⟩

theorem pyUpperChar_fix (c : Char) : pyUpperChar (pyUpperChar c) = pyUpperChar c := by
  by_cases h1 : c = 'a'
  · subst h1
    decide
  by_cases h2 : c = 'b'
  · subst h2
    decide
  by_cases h3 : c = 'c'
  · subst h3
    decide
  by_cases h4 : c = 'd'
  · subst h4
    decide
  by_cases h5 : c = 'e'
  · subst h5
    decide
  by_cases h6 : c = 'f'
  · subst h6
    decide
  by_cases h7 : c = 'g'
  · subst h7
    decide
  by_cases h8 : c = 'h'
  · subst h8
    decide
  by_cases h9 : c = 'i'
  · subst h9
    decide
  by_cases h10 : c = 'j'
  · subst h10
    decide
  by_cases h11 : c = 'k'
  · subst h11
    decide
  by_cases h12 : c = 'l'
  · subst h12
    decide
  by_cases h13 : c = 'm'
  · subst h13
    decide
  by_cases h14 : c = 'n'
  · subst h14
    decide
  by_cases h15 : c = 'o'
  · subst h15
    decide
  by_cases h16 : c = 'p'
  · subst h16
    decide
  by_cases h17 : c = 'q'
  · subst h17
    decide
  by_cases h18 : c = 'r'
  · subst h18
    decide
  by_cases h19 : c = 's'
  · subst h19
    decide
  by_cases h20 : c = 't'
  · subst h20
    decide
  by_cases h21 : c = 'u'
  · subst h21
    decide
  by_cases h22 : c = 'v'
  · subst h22
    decide
  by_cases h23 : c = 'w'
  · subst h23
    decide
  by_cases h24 : c = 'x'
  · subst h24
    decide
  by_cases h25 : c = 'y'
  · subst h25
    decide
  by_cases h26 : c = 'z'
  · subst h26
    decide
  have hc : pyUpperChar c = c := by
    unfold pyUpperChar
    rw [if_neg h1, if_neg h2, if_neg h3, if_neg h4, if_neg h5, if_neg h6,
      if_neg h7, if_neg h8, if_neg h9, if_neg h10, if_neg h11, if_neg h12,
      if_neg h13, if_neg h14, if_neg h15, if_neg h16, if_neg h17, if_neg h18,
      if_neg h19, if_neg h20, if_neg h21, if_neg h22, if_neg h23, if_neg h24,
      if_neg h25, if_neg h26]
  rw [hc]
  exact hc

theorem listMapFix (f : Char → Char) (l : Str) (h : ∀ c ∈ l, f c = c) :
    l.map f = l := by
  induction l with
  | nil => rfl
  | cons a l ih =>
    rw [List.map_cons, h a (List.mem_cons_self _ _),
      ih (fun c hc => h c (List.mem_cons_of_mem _ hc))]

theorem head?_mem (l : Str) (c : Char) (h : l.head? = some c) : c ∈ l := by
  cases l with
  | nil => cases h
  | cons a cs =>
    have ha : a = c := by
      injection h
    subst ha
    exact List.mem_cons_self _ _

theorem mem_of_mem_pyStrip (l : Str) (c : Char) (h : c ∈ pyStrip l) : c ∈ l := by
  unfold pyStrip at h
  rw [List.mem_reverse] at h
  have h2 := (List.dropWhile_sublist isSpaceChar).subset h
  rw [List.mem_reverse] at h2
  exact (List.dropWhile_sublist isSpaceChar).subset h2

theorem mem_of_mem_stripFold (sufs : List Str) (s : Str) (c : Char)
    (h : c ∈ stripFold sufs s) : c ∈ s := by
  induction sufs generalizing s with
  | nil => exact h
  | cons a l ih =>
    have h2 := ih (if endsWithL s a then dropSuffixL s a else s) h
    by_cases he : endsWithL s a
    · rw [if_pos he] at h2
      exact (List.take_sublist _ _).subset h2
    · rw [if_neg he] at h2
      exact h2

theorem eatSpaces_sublist (l r : Str) (h : eatSpaces l = some r) :
    r.Sublist l := by
  cases l with
  | nil => cases h
  | cons a cs =>
    simp only [eatSpaces] at h
    by_cases hs : isSpaceChar a = true
    · rw [if_pos hs, Option.some.injEq] at h
      rw [← h]
      exact (List.dropWhile_sublist isSpaceChar).trans (List.sublist_cons_self a cs)
    · rw [if_neg hs] at h
      cases h

theorem eatPred_sublist (p : Char → Bool) (l r : Str) (h : eatPred p l = some r) :
    r.Sublist l := by
  cases l with
  | nil => cases h
  | cons a cs =>
    simp only [eatPred] at h
    by_cases hs : p a = true
    · rw [if_pos hs, Option.some.injEq] at h
      rw [← h]
      exact List.sublist_cons_self a cs
    · rw [if_neg hs] at h
      cases h

theorem matchDateFragment_sublist (l rest : Str)
    (h : matchDateFragment l = some rest) : rest.Sublist l := by
  unfold matchDateFragment at h
  obtain ⟨r1, e1, h⟩ := Option.bind_eq_some.1 h
  obtain ⟨r2, e2, h⟩ := Option.bind_eq_some.1 h
  obtain ⟨r3, e3, h⟩ := Option.bind_eq_some.1 h
  obtain ⟨r4, e4, h⟩ := Option.bind_eq_some.1 h
  obtain ⟨r5, e5, h⟩ := Option.bind_eq_some.1 h
  obtain ⟨r6, e6, h⟩ := Option.bind_eq_some.1 h
  obtain ⟨r7, e7, h⟩ := Option.bind_eq_some.1 h
  obtain ⟨r8, e8, h⟩ := Option.bind_eq_some.1 h
  obtain ⟨r9, e9, h⟩ := Option.bind_eq_some.1 h
  exact ((((((((((eatPred_sublist _ _ _ h).trans
    (eatPred_sublist _ _ _ e9)).trans
    (eatPred_sublist _ _ _ e8)).trans
    (eatSpaces_sublist _ _ e7)).trans
    (eatPred_sublist _ _ _ e6)).trans
    (eatPred_sublist _ _ _ e5)).trans
    (eatSpaces_sublist _ _ e4)).trans
    (eatPred_sublist _ _ _ e3)).trans
    (eatPred_sublist _ _ _ e2)).trans
    (eatSpaces_sublist _ _ e1))

theorem mem_of_mem_removeDateAux (fuel : Nat) (l : Str) (c : Char)
    (h : c ∈ removeDateAux fuel l) : c ∈ l := by
  induction fuel generalizing l with
  | zero => exact h
  | succ f ih =>
    cases l with
    | nil => exact h
    | cons a cs =>
      cases hm : matchDateFragment (a :: cs) with
      | some rest =>
        simp only [removeDateAux, hm] at h
        exact (matchDateFragment_sublist _ _ hm).subset (ih rest h)
      | none =>
        simp only [removeDateAux, hm] at h
        rcases List.mem_cons.1 h with rfl | h2
        · exact List.mem_cons_self _ _
        · exact List.mem_cons_of_mem _ (ih cs h2)

theorem pySplitRaw_cons (c : Char) (cs : Str) :
    pySplitRaw (c :: cs) = splitStep c (pySplitRaw cs) := rfl

theorem chunk_chars_not_space (l : Str) :
    ∀ w ∈ pySplitRaw l, ∀ c ∈ w, isSpaceChar c = false := by
  induction l with
  | nil =>
    intro w hw
    cases hw
  | cons a cs ih =>
    intro w hw c hc
    rw [pySplitRaw_cons] at hw
    unfold splitStep at hw
    by_cases hsp : isSpaceChar a = true
    · rw [if_pos hsp] at hw
      rcases List.mem_cons.1 hw with rfl | hw2
      · cases hc
      · exact ih w hw2 c hc
    · rw [if_neg hsp] at hw
      cases hP : pySplitRaw cs with
      | nil =>
        rw [hP] at hw
        rcases List.mem_cons.1 hw with rfl | hw2
        · rcases List.mem_cons.1 hc with rfl | hc2
          · simpa using hsp
          · cases hc2
        · cases hw2
      | cons wh wt =>
        rw [hP] at hw
        rcases List.mem_cons.1 hw with rfl | hw2
        · rcases List.mem_cons.1 hc with rfl | hc2
          · simpa using hsp
          · exact ih wh (hP ▸ List.mem_cons_self _ _) c hc2
        · exact ih w (hP ▸ List.mem_cons_of_mem _ hw2) c hc

theorem mem_of_chunk_mem (l : Str) :
    ∀ w ∈ pySplitRaw l, ∀ c ∈ w, c ∈ l := by
  induction l with
  | nil =>
    intro w hw
    cases hw
  | cons a cs ih =>
    intro w hw c hc
    rw [pySplitRaw_cons] at hw
    unfold splitStep at hw
    by_cases hsp : isSpaceChar a = true
    · rw [if_pos hsp] at hw
      rcases List.mem_cons.1 hw with rfl | hw2
      · cases hc
      · exact List.mem_cons_of_mem _ (ih w hw2 c hc)
    · rw [if_neg hsp] at hw
      cases hP : pySplitRaw cs with
      | nil =>
        rw [hP] at hw
        rcases List.mem_cons.1 hw with rfl | hw2
        · rcases List.mem_cons.1 hc with rfl | hc2
          · exact List.mem_cons_self _ _
          · cases hc2
        · cases hw2
      | cons wh wt =>
        rw [hP] at hw
        rcases List.mem_cons.1 hw with rfl | hw2
        · rcases List.mem_cons.1 hc with rfl | hc2
          · exact List.mem_cons_self _ _
          · exact List.mem_cons_of_mem _
              (ih wh (hP ▸ List.mem_cons_self _ _) c hc2)
        · exact List.mem_cons_of_mem _
            (ih w (hP ▸ List.mem_cons_of_mem _ hw2) c hc)

theorem mem_joinSpace (ws : List Str) (c : Char) (h : c ∈ joinSpace ws) :
    (∃ w ∈ ws, c ∈ w) ∨ c = ' ' := by
  induction ws with
  | nil => cases h
  | cons w ws ih =>
    cases ws with
    | nil => exact Or.inl ⟨w, List.mem_cons_self _ _, h⟩
    | cons w2 ws2 =>
      have h2 : c ∈ w ++ ' ' :: joinSpace (w2 :: ws2) := h
      rcases List.mem_append.1 h2 with h3 | h3
      · exact Or.inl ⟨w, List.mem_cons_self _ _, h3⟩
      · rcases List.mem_cons.1 h3 with rfl | h4
        · exact Or.inr rfl
        · rcases ih h4 with ⟨w3, hw3, hc3⟩ | he
          · exact Or.inl ⟨w3, List.mem_cons_of_mem _ hw3, hc3⟩
          · exact Or.inr he

theorem clean_chars_upper_fixed (x : Str) :
    ∀ c ∈ clean_transaction_details x, pyUpperChar c = c := by
  intro c h
  have h2 : c ∈ joinSpace (pySplit
      (removeDateFragments (stripCodes (pyStrip (pyUpperL x))))) := h
  rcases mem_joinSpace _ c h2 with ⟨w, hw, hc⟩ | he
  · have hw2 := (List.mem_filter.1 hw).1
    have hc2 := mem_of_chunk_mem _ w hw2 c hc
    have hc3 := mem_of_mem_removeDateAux _ _ c hc2
    have hc4 := mem_of_mem_stripFold _ _ c hc3
    have hc5 := mem_of_mem_pyStrip _ c hc4
    obtain ⟨c0, hc0, rfl⟩ := List.mem_map.1 hc5
    exact pyUpperChar_fix c0
  · rw [he]
    decide

theorem pyUpperL_clean (x : Str) :
    pyUpperL (clean_transaction_details x) = clean_transaction_details x :=
  listMapFix pyUpperChar _ (clean_chars_upper_fixed x)

theorem pySplitRaw_word (w : Str) (hne : w ≠ [])
    (hns : ∀ c ∈ w, isSpaceChar c = false) : pySplitRaw w = [w] := by
  induction w with
  | nil => exact absurd rfl hne
  | cons a w ih =>
    have ha := hns a (List.mem_cons_self _ _)
    rw [pySplitRaw_cons]
    unfold splitStep
    rw [if_neg (by simp [ha])]
    cases w with
    | nil => rfl
    | cons b w2 =>
      rw [ih (by simp) (fun c hc => hns c (List.mem_cons_of_mem _ hc))]

theorem pySplitRaw_word_append (w l : Str) (hne : w ≠ [])
    (hns : ∀ c ∈ w, isSpaceChar c = false) :
    pySplitRaw (w ++ ' ' :: l) = w :: pySplitRaw l := by
  induction w with
  | nil => exact absurd rfl hne
  | cons a w ih =>
    have ha := hns a (List.mem_cons_self _ _)
    cases w with
    | nil =>
      show splitStep a (pySplitRaw (' ' :: l)) = [a] :: pySplitRaw l
      rw [pySplitRaw_cons, show splitStep ' ' (pySplitRaw l) =
        [] :: pySplitRaw l from by unfold splitStep; rw [if_pos (by decide)]]
      unfold splitStep
      rw [if_neg (by simp [ha])]
    | cons b w2 =>
      have ih2 := ih (by simp) (fun c hc => hns c (List.mem_cons_of_mem _ hc))
      show splitStep a (pySplitRaw ((b :: w2) ++ ' ' :: l)) =
        (a :: b :: w2) :: pySplitRaw l
      rw [ih2]
      unfold splitStep
      rw [if_neg (by simp [ha])]

theorem pySplit_joinSpace (ws : List Str)
    (h : ∀ w ∈ ws, w ≠ [] ∧ ∀ c ∈ w, isSpaceChar c = false) :
    pySplit (joinSpace ws) = ws := by
  induction ws with
  | nil => rfl
  | cons w ws ih =>
    obtain ⟨hne, hns⟩ := h w (List.mem_cons_self _ _)
    cases ws with
    | nil =>
      show pySplit (joinSpace [w]) = [w]
      unfold pySplit
      rw [show joinSpace [w] = w from rfl, pySplitRaw_word w hne hns,
        List.filter_cons]
      rw [if_pos (by simpa using hne)]
      rfl
    | cons w2 ws2 =>
      have ih2 := ih (fun u hu => h u (List.mem_cons_of_mem _ hu))
      unfold pySplit at ih2 ⊢
      show ((pySplitRaw (w ++ ' ' :: joinSpace (w2 :: ws2))).filter
        (fun u => u ≠ [])) = w :: w2 :: ws2
      rw [pySplitRaw_word_append w _ hne hns, List.filter_cons,
        if_pos (by simpa using hne), ih2]

theorem pySplit_good (l : Str) :
    ∀ w ∈ pySplit l, w ≠ [] ∧ ∀ c ∈ w, isSpaceChar c = false := by
  intro w hw
  have h1 := List.mem_filter.1 hw
  refine ⟨by simpa using h1.2, ?_⟩
  exact chunk_chars_not_space l w h1.1

theorem collapseSpaces_idem (l : Str) :
    collapseSpaces (collapseSpaces l) = collapseSpaces l := by
  show joinSpace (pySplit (joinSpace (pySplit l))) = joinSpace (pySplit l)
  rw [pySplit_joinSpace (pySplit l) (pySplit_good l)]

theorem dropWhile_eq_self_head (l : Str) (p : Char → Bool)
    (h : ∀ c, l.head? = some c → p c = false) : l.dropWhile p = l := by
  cases l with
  | nil => rfl
  | cons a cs =>
    rw [List.dropWhile_cons, h a rfl, if_neg Bool.false_ne_true]

theorem joinSpace_ne_nil (ws : List Str) (hne : ws ≠ [])
    (h : ∀ w ∈ ws, w ≠ []) : joinSpace ws ≠ [] := by
  cases ws with
  | nil => exact absurd rfl hne
  | cons w ws =>
    cases ws with
    | nil => exact h w (List.mem_cons_self _ _)
    | cons w2 ws2 =>
      show w ++ ' ' :: joinSpace (w2 :: ws2) ≠ []
      simp

theorem joinSpace_head_not_space (ws : List Str)
    (hg : ∀ w ∈ ws, w ≠ [] ∧ ∀ c ∈ w, isSpaceChar c = false) :
    ∀ c, (joinSpace ws).head? = some c → isSpaceChar c = false := by
  cases ws with
  | nil =>
    intro c hc
    cases hc
  | cons w ws =>
    obtain ⟨hne, hns⟩ := hg w (List.mem_cons_self _ _)
    intro c hc
    have hh : (joinSpace (w :: ws)).head? = w.head? := by
      cases ws with
      | nil => rfl
      | cons w2 ws2 => exact List.head?_append_of_ne_nil w hne
    rw [hh] at hc
    exact hns c (head?_mem w c hc)

theorem joinSpace_reverse_head_not_space (ws : List Str)
    (hg : ∀ w ∈ ws, w ≠ [] ∧ ∀ c ∈ w, isSpaceChar c = false) :
    ∀ c, (joinSpace ws).reverse.head? = some c → isSpaceChar c = false := by
  induction ws with
  | nil =>
    intro c hc
    cases hc
  | cons w ws ih =>
    cases ws with
    | nil =>
      intro c hc
      have hcw : c ∈ w.reverse := head?_mem _ c hc
      rw [List.mem_reverse] at hcw
      exact (hg w (List.mem_cons_self _ _)).2 c hcw
    | cons w2 ws2 =>
      intro c hc
      have he : joinSpace (w :: w2 :: ws2) = w ++ ' ' :: joinSpace (w2 :: ws2) := rfl
      rw [he, List.reverse_append, List.reverse_cons] at hc
      have hXne : (joinSpace (w2 :: ws2)).reverse ≠ [] := by
        have h0 := joinSpace_ne_nil (w2 :: ws2) (by simp)
          (fun u hu => (hg u (List.mem_cons_of_mem _ hu)).1)
        simpa using h0
      rw [List.head?_append_of_ne_nil _ (by simp [hXne]),
        List.head?_append_of_ne_nil _ hXne] at hc
      exact ih (fun u hu => hg u (List.mem_cons_of_mem _ hu)) c hc

theorem pyStrip_collapseSpaces (l : Str) :
    pyStrip (collapseSpaces l) = collapseSpaces l := by
  show pyStrip (joinSpace (pySplit l)) = joinSpace (pySplit l)
  unfold pyStrip
  rw [dropWhile_eq_self_head _ _
      (joinSpace_head_not_space (pySplit l) (pySplit_good l)),
    dropWhile_eq_self_head _ _
      (joinSpace_reverse_head_not_space (pySplit l) (pySplit_good l)),
    List.reverse_reverse]

theorem removeDateAux_no_match (l : Str)
    (h : ∀ i, matchDateFragment (l.drop i) = none) :
    ∀ fuel, removeDateAux fuel l = l := by
  induction l with
  | nil =>
    intro fuel
    cases fuel with
    | zero => rfl
    | succ f => rfl
  | cons a cs ih =>
    intro fuel
    cases fuel with
    | zero => rfl
    | succ f =>
      have h0 : matchDateFragment (a :: cs) = none := by
        have h1 := h 0
        simpa using h1
      show (match matchDateFragment (a :: cs) with
        | some rest => removeDateAux f rest
        | none => a :: removeDateAux f cs) = a :: cs
      rw [h0, ih (fun i => by have h1 := h (i + 1); simpa using h1) f]

theorem noDateFragmentB_spec (l : Str) (h : noDateFragmentB l = true) :
    ∀ i, matchDateFragment (l.drop i) = none := by
  intro i
  by_cases hi : i ≤ l.length
  · have h1 := (List.all_eq_true.1 h) i (List.mem_range.2 (by omega))
    exact Option.isNone_iff_eq_none.1 h1
  · rw [List.drop_eq_nil_of_le (by omega)]
    rfl

/-- C5 fails on the code: the normalizer is not idempotent.  One pass of
the suffix loop over "A CPM CLP" removes only " CLP" (the exposed " CPM"
is earlier in the code list and is not re-checked), so a second
application strips further. -/
theorem clean_details_not_idempotent_cex :
    clean_transaction_details (("A CPM CLP").toList) = ("A CPM").toList ∧
      clean_transaction_details (clean_transaction_details
        (("A CPM CLP").toList)) = ("A").toList ∧
      ("A").toList ≠ ("A CPM").toList := by
  exact ⟨by decide, by decide, by decide⟩

/-- C5 amended: the normalizer is idempotent on every input whose
normalized form neither ends with one of the seven payment codes nor
still contains a date fragment; when the normalized form retains a
trailing code (stacked codes) or a date fragment (recreated by an
earlier removal), a second application strips further (see the
counterexample). -/
theorem clean_details_conditionally_idempotent (x : Str)
    (h1 : ∀ suf ∈ suffixCodes,
      endsWithL (clean_transaction_details x) suf = false)
    (h2 : noDateFragmentB (clean_transaction_details x) = true) :
    clean_transaction_details (clean_transaction_details x) =
      clean_transaction_details x := by
  have hupper := pyUpperL_clean x
  have hstrip : pyStrip (clean_transaction_details x) =
      clean_transaction_details x :=
    pyStrip_collapseSpaces _
  have hcodes : stripCodes (clean_transaction_details x) =
      clean_transaction_details x :=
    stripFold_no_match suffixCodes _ h1
  have hdate : removeDateFragments (clean_transaction_details x) =
      clean_transaction_details x :=
    removeDateAux_no_match _ (noDateFragmentB_spec _ h2) _
  have hcollapse : collapseSpaces (clean_transaction_details x) =
      clean_transaction_details x :=
    collapseSpaces_idem _
  calc clean_transaction_details (clean_transaction_details x)
      = collapseSpaces (removeDateFragments (stripCodes (pyStrip
          (pyUpperL (clean_transaction_details x))))) := rfl
    _ = collapseSpaces (removeDateFragments (stripCodes (pyStrip
          (clean_transaction_details x)))) := by rw [hupper]
    _ = collapseSpaces (removeDateFragments (stripCodes
          (clean_transaction_details x))) := by rw [hstrip]
    _ = collapseSpaces (removeDateFragments (clean_transaction_details x)) := by
          rw [hcodes]
    _ = collapseSpaces (clean_transaction_details x) := by rw [hdate]
    _ = clean_transaction_details x := hcollapse

theorem clean_details_conditionally_idempotent_witness :
    (∀ suf ∈ suffixCodes, endsWithL
      (clean_transaction_details (("tesco stores  on 05 jan").toList))
      suf = false) ∧
    noDateFragmentB (clean_transaction_details
      (("tesco stores  on 05 jan").toList)) = true ∧
    clean_transaction_details (clean_transaction_details
        (("tesco stores  on 05 jan").toList)) =
      clean_transaction_details (("tesco stores  on 05 jan").toList) :=
  ⟨by decide, by decide,
   clean_details_conditionally_idempotent (("tesco stores  on 05 jan").toList)
     (by decide) (by decide)⟩

end AutomateFinances
